import Mathlib

/-!
Verification of the photo-catalog / face-recognition pipeline
(`a_vision`: `database.py`, `face_processor.py`, `yolo_processor.py`).

The Python source is shallowly embedded: each relevant Python function is
translated into an executable Lean definition; database effects are modelled
as explicit state passing on a per-photo state record; confidences and
distances (Python floats) are modelled as exact rationals; fallible steps are
modelled with `Except`.
-/

set_option autoImplicit false

namespace AVision

/-! ## Detection events (`database.py`, `add_object_detections`)

A raw YOLO detection event: the dictionaries
`{'class_name': ..., 'class_id': ..., 'confidence': ...}` produced in
`yolo_processor.process_single_image`. -/

structure Detection where
  className : String
  classId : Int
  confidence : ℚ
  deriving Repr, DecidableEq

/-- One step of the grouping loop in `add_object_detections`
(`database.py` lines 372-382): the accumulator is the pair of insertion-ordered
dictionaries `class_counts` / `class_confidences`, modelled as one association
list `class_name ↦ (count, confidences)`.  A new key is appended at the end
(Python dict insertion order); an existing key is updated in place. -/
def addDet : List (String × Nat × List ℚ) → String → ℚ → List (String × Nat × List ℚ)
  | [], c, q => [(c, 1, [q])]
  | (c', n, cs) :: rest, c, q =>
    if c' == c then (c', n + 1, cs ++ [q]) :: rest
    else (c', n, cs) :: addDet rest c q

/-- The grouping loop of `add_object_detections` over the whole detection
list. -/
def groupDetections (dets : List Detection) : List (String × Nat × List ℚ) :=
  dets.foldl (fun st d => addDet st d.className d.confidence) []

/-- Model of `next(d for d in detections if d.class_name == class_name).class_id`
(`database.py` line 402): the `class_id` of the first detection event with the
given class name.  The `0` default is unreachable when the class name occurs. -/
def firstClassId (dets : List Detection) (c : String) : Int :=
  match dets.find? (fun d => d.className == c) with
  | some d => d.classId
  | none => 0

/-- Python's `max` on a nonempty list (the `[]` case is unreachable in the
source: every group holds at least one confidence). -/
def pyListMax : List ℚ → ℚ
  | [] => 0
  | x :: xs => xs.foldl max x

/-- A row of the object summary table. -/
structure ObjectSummaryRow where
  className : String
  classId : Int
  totalCount : Nat
  avgConfidence : ℚ
  maxConfidence : ℚ
  deriving Repr, DecidableEq

/-- The summary rows inserted by `add_object_detections`
(`database.py` lines 397-408): one row per grouped class, with
`total_count = count`, `avg_confidence = sum(confidences)/len(confidences)`,
`max_confidence = max(confidences)`, and `class_id` the id of the first event
of that class. -/
def objectSummaries (dets : List Detection) : List ObjectSummaryRow :=
  (groupDetections dets).map fun g =>
    { className := g.1
      classId := firstClassId dets g.1
      totalCount := g.2.1
      avgConfidence := (g.2.2).sum / ((g.2.2).length : ℚ)
      maxConfidence := pyListMax g.2.2 }

/-! Helper notions used to state the aggregation claim. -/

/-- The events of a given class, in input order. -/
def eventsOf (dets : List Detection) (c : String) : List Detection :=
  dets.filter (fun d => d.className == c)

/-- The confidences of the events of a given class, in input order. -/
def confsOf (dets : List Detection) (c : String) : List ℚ :=
  (eventsOf dets c).map (fun d => d.confidence)

end AVision

namespace AVision

theorem foldl_addDet_cons (c : String) (rest : List Detection) :
    ∀ (st : List (String × Nat × List ℚ)) (n : Nat) (cs : List ℚ),
    List.foldl (fun st d => addDet st d.className d.confidence) ((c, n, cs) :: st) rest
      = (c, n + (eventsOf rest c).length, cs ++ confsOf rest c)
          :: List.foldl (fun st d => addDet st d.className d.confidence) st
              (rest.filter (fun d => d.className != c)) := by
  induction rest with
  | nil => intro st n cs; simp [eventsOf, confsOf]
  | cons e rest ih =>
    intro st n cs
    by_cases h : c = e.className
    · have hb : (c == e.className) = true := by simp [h]
      have h2 : (e.className == c) = true := by simp [h]
      have h3 : (e.className != c) = false := by simp [bne, h2]
      simp only [List.foldl_cons]
      rw [show addDet ((c, n, cs) :: st) e.className e.confidence
            = (c, n + 1, cs ++ [e.confidence]) :: st by simp [addDet, hb]]
      rw [ih]
      simp [eventsOf, confsOf, List.filter_cons, h2, h3, Nat.add_assoc, Nat.add_comm]
    · have h' : ¬ e.className = c := fun hh => h hh.symm
      have hb : (c == e.className) = false := by simp [h]
      have h2 : (e.className == c) = false := by simp [h']
      have h3 : (e.className != c) = true := by simp [bne, h2]
      simp only [List.foldl_cons]
      rw [show addDet ((c, n, cs) :: st) e.className e.confidence
            = (c, n, cs) :: addDet st e.className e.confidence by simp [addDet, hb]]
      rw [ih]
      simp [eventsOf, confsOf, List.filter_cons, h2, h3]

theorem groupDetections_cons (d : Detection) (rest : List Detection) :
    groupDetections (d :: rest)
      = (d.className, 1 + (eventsOf rest d.className).length,
          d.confidence :: confsOf rest d.className)
          :: groupDetections (rest.filter (fun e => e.className != d.className)) := by
  show List.foldl _ (addDet [] d.className d.confidence) rest = _
  simp only [addDet]
  rw [foldl_addDet_cons]
  simp [groupDetections, Nat.add_comm]

theorem eventsOf_filter_ne (dets : List Detection) (b c : String) (h : c ≠ b) :
    eventsOf (dets.filter (fun e => e.className != b)) c = eventsOf dets c := by
  induction dets with
  | nil => rfl
  | cons e rest ih =>
    by_cases he : e.className = c
    · have h1 : (e.className != b) = true := by simp [he, h]
      have h2 : (e.className == c) = true := by simp [he]
      simp [eventsOf, List.filter_cons, h1, h2] at ih ⊢
      exact ih
    · have h2 : (e.className == c) = false := by simp [he]
      by_cases hb : e.className = b
      · have h1 : (e.className != b) = false := by simp [hb]
        simp [eventsOf, List.filter_cons, h1, h2] at ih ⊢
        exact ih
      · have h1 : (e.className != b) = true := by simp [hb]
        simp [eventsOf, List.filter_cons, h1, h2] at ih ⊢
        exact ih

theorem groupDetections_find_aux :
    ∀ (N : Nat) (dets : List Detection), dets.length ≤ N → ∀ c : String,
      0 < (eventsOf dets c).length →
      (groupDetections dets).find? (fun g => g.1 == c)
        = some (c, (eventsOf dets c).length, confsOf dets c) := by
  intro N
  induction N with
  | zero =>
    intro dets hlen c hc
    obtain rfl : dets = [] := List.eq_nil_of_length_eq_zero (Nat.le_zero.mp hlen)
    simp [eventsOf] at hc
  | succ N ih =>
    intro dets hlen c hc
    match dets with
    | [] => simp [eventsOf] at hc
    | d :: rest =>
      rw [groupDetections_cons]
      by_cases h : d.className = c
      · have hb : (d.className == c) = true := by simp [h]
        rw [List.find?_cons_of_pos _ (by simpa using hb)]
        simp [eventsOf, confsOf, List.filter_cons, hb, h, Nat.add_comm]
      · have hb : (d.className == c) = false := by simp [h]
        have hc' : c ≠ d.className := fun hh => h hh.symm
        rw [List.find?_cons_of_neg _ (by simpa using hb)]
        have hfl : (rest.filter (fun e => e.className != d.className)).length ≤ N := by
          have h1 : (rest.filter (fun e => e.className != d.className)).length ≤ rest.length :=
            List.length_filter_le _ _
          have h2 : rest.length ≤ N := by
            simpa using Nat.le_of_succ_le_succ hlen
          omega
        have hev := eventsOf_filter_ne rest d.className c hc'
        have hev0 : eventsOf (d :: rest) c = eventsOf rest c := by
          simp [eventsOf, List.filter_cons, hb]
        rw [ih _ hfl c (by rw [hev]; simpa [hev0] using hc)]
        rw [hev0]
        have hcf : confsOf (rest.filter (fun e => e.className != d.className)) c
            = confsOf rest c := by
          simp [confsOf, hev]
        have hcf0 : confsOf (d :: rest) c = confsOf rest c := by
          simp [confsOf, hev0]
        rw [hcf, hev, hcf0]

theorem groupDetections_find (dets : List Detection) (c : String)
    (hc : 0 < (eventsOf dets c).length) :
    (groupDetections dets).find? (fun g => g.1 == c)
      = some (c, (eventsOf dets c).length, confsOf dets c) :=
  groupDetections_find_aux dets.length dets le_rfl c hc

theorem groupDetections_mem_aux :
    ∀ (N : Nat) (dets : List Detection), dets.length ≤ N →
      ∀ g ∈ groupDetections dets, ∃ d ∈ dets, d.className = g.1 := by
  intro N
  induction N with
  | zero =>
    intro dets hlen g hg
    obtain rfl : dets = [] := List.eq_nil_of_length_eq_zero (Nat.le_zero.mp hlen)
    simp [groupDetections] at hg
  | succ N ih =>
    intro dets hlen g hg
    match dets with
    | [] => simp [groupDetections] at hg
    | d :: rest =>
      rw [groupDetections_cons] at hg
      rcases List.mem_cons.mp hg with hg | hg
      · exact ⟨d, List.mem_cons_self _ _, by rw [hg]⟩
      · have hfl : (rest.filter (fun e => e.className != d.className)).length ≤ N := by
          have h1 : (rest.filter (fun e => e.className != d.className)).length ≤ rest.length :=
            List.length_filter_le _ _
          have h2 : rest.length ≤ N := by simpa using Nat.le_of_succ_le_succ hlen
          omega
        obtain ⟨e, he, hce⟩ := ih _ hfl g hg
        exact ⟨e, List.mem_cons_of_mem _ (List.mem_of_mem_filter he), hce⟩

theorem groupDetections_keys_nodup_aux :
    ∀ (N : Nat) (dets : List Detection), dets.length ≤ N →
      ((groupDetections dets).map (fun g => g.1)).Nodup := by
  intro N
  induction N with
  | zero =>
    intro dets hlen
    obtain rfl : dets = [] := List.eq_nil_of_length_eq_zero (Nat.le_zero.mp hlen)
    simp [groupDetections]
  | succ N ih =>
    intro dets hlen
    match dets with
    | [] => simp [groupDetections]
    | d :: rest =>
      rw [groupDetections_cons]
      have hfl : (rest.filter (fun e => e.className != d.className)).length ≤ N := by
        have h1 : (rest.filter (fun e => e.className != d.className)).length ≤ rest.length :=
          List.length_filter_le _ _
        have h2 : rest.length ≤ N := by simpa using Nat.le_of_succ_le_succ hlen
        omega
      rw [List.map_cons]
      refine List.nodup_cons.mpr ⟨?_, ih _ hfl⟩
      intro hmem
      obtain ⟨g, hg, hgc⟩ := List.mem_map.mp hmem
      obtain ⟨e, he, hce⟩ := groupDetections_mem_aux _ _ hfl g hg
      have hpf : (e.className != d.className) = true := by
        simpa using (List.mem_filter.mp he).2
      rw [hce, hgc] at hpf
      simp at hpf

theorem foldl_max_init_le (l : List ℚ) : ∀ a : ℚ, a ≤ l.foldl max a := by
  induction l with
  | nil => intro a; simp
  | cons x xs ih =>
    intro a
    rw [List.foldl_cons]
    exact le_trans (le_max_left a x) (ih (max a x))

theorem foldl_max_mem_le (l : List ℚ) : ∀ (a q : ℚ), q ∈ l → q ≤ l.foldl max a := by
  induction l with
  | nil => intro a q hq; simp at hq
  | cons x xs ih =>
    intro a q hq
    rw [List.foldl_cons]
    rcases List.mem_cons.mp hq with rfl | hq
    · exact le_trans (le_max_right a q) (foldl_max_init_le xs (max a q))
    · exact ih (max a x) q hq

theorem foldl_max_mem_or (l : List ℚ) : ∀ a : ℚ, l.foldl max a = a ∨ l.foldl max a ∈ l := by
  induction l with
  | nil => intro a; left; rfl
  | cons x xs ih =>
    intro a
    rw [List.foldl_cons]
    rcases ih (max a x) with h | h
    · rcases max_choice a x with hm | hm
      · left; rw [h, hm]
      · right; rw [h, hm]; exact List.mem_cons_self _ _
    · right; exact List.mem_cons_of_mem _ h

theorem pyListMax_mem : ∀ {l : List ℚ}, l ≠ [] → pyListMax l ∈ l := by
  intro l h
  match l with
  | x :: xs =>
    show xs.foldl max x ∈ x :: xs
    rcases foldl_max_mem_or xs x with h | h
    · rw [h]; exact List.mem_cons_self _ _
    · exact List.mem_cons_of_mem _ h

theorem pyListMax_ge : ∀ {l : List ℚ} (q : ℚ), q ∈ l → q ≤ pyListMax l := by
  intro l q hq
  match l with
  | x :: xs =>
    show q ≤ xs.foldl max x
    rcases List.mem_cons.mp hq with rfl | hq
    · exact foldl_max_init_le xs q
    · exact foldl_max_mem_le xs x q hq

/-- C1: For every list of detection events passed to
`add_object_detections`, the `ObjectSummary` row written for each
`class_name` has `total_count` equal to the number of events with that
class name, `avg_confidence` equal to the arithmetic mean of those events'
confidences, `max_confidence` equal to their maximum, and `class_id` equal
to the `class_id` of the first event with that class name in input order. -/
theorem add_object_detections_summary_correct (dets : List Detection) (c : String)
    (hc : ∃ d ∈ dets, d.className = c) :
    ∃ row : ObjectSummaryRow,
      (objectSummaries dets).find? (fun r => r.className == c) = some row ∧
      (∀ r ∈ objectSummaries dets, r.className = c → r = row) ∧
      row.className = c ∧
      row.totalCount = (eventsOf dets c).length ∧
      row.avgConfidence = (confsOf dets c).sum / ((confsOf dets c).length : ℚ) ∧
      row.maxConfidence ∈ confsOf dets c ∧
      (∀ q ∈ confsOf dets c, q ≤ row.maxConfidence) ∧
      (∃ d0, dets.find? (fun d => d.className == c) = some d0 ∧
        row.classId = d0.classId) := by
  obtain ⟨d, hd, hdc⟩ := hc
  have hmem : d ∈ eventsOf dets c := List.mem_filter.mpr ⟨hd, by simp [hdc]⟩
  have hpos : 0 < (eventsOf dets c).length := List.length_pos.mpr (List.ne_nil_of_mem hmem)
  have hfind := groupDetections_find dets c hpos
  -- the summary-building function of `objectSummaries`
  set f : String × Nat × List ℚ → ObjectSummaryRow := fun g =>
    { className := g.1
      classId := firstClassId dets g.1
      totalCount := g.2.1
      avgConfidence := (g.2.2).sum / ((g.2.2).length : ℚ)
      maxConfidence := pyListMax g.2.2 } with hf
  have hmapfind : (objectSummaries dets).find? (fun r => r.className == c)
      = ((groupDetections dets).find? (fun g => g.1 == c)).map f := by
    show ((groupDetections dets).map f).find? (fun r => r.className == c) = _
    rw [List.find?_map]
    rfl
  refine ⟨f (c, (eventsOf dets c).length, confsOf dets c), ?_, ?_, rfl, rfl, rfl, ?_, ?_, ?_⟩
  · rw [hmapfind, hfind]; rfl
  · -- uniqueness: summary class names are distinct
    intro r hr hrc
    have hkeys : ((groupDetections dets).map (fun g => g.1)).Nodup :=
      groupDetections_keys_nodup_aux dets.length dets le_rfl
    have hnames : ((objectSummaries dets).map ObjectSummaryRow.className).Nodup := by
      have : (objectSummaries dets).map ObjectSummaryRow.className
          = (groupDetections dets).map (fun g => g.1) := by
        simp [objectSummaries, Function.comp]
      rw [this]; exact hkeys
    have hrowmem : f (c, (eventsOf dets c).length, confsOf dets c) ∈ objectSummaries dets := by
      apply List.mem_of_find?_eq_some
      rw [hmapfind, hfind]; rfl
    exact List.inj_on_of_nodup_map hnames hr hrowmem (by rw [hrc])
  · -- max_confidence is attained
    have hne : confsOf dets c ≠ [] := by
      simp only [confsOf]
      exact fun h => (List.map_eq_nil_iff.mp h ▸ List.ne_nil_of_mem hmem) rfl
    exact pyListMax_mem hne
  · intro q hq
    exact pyListMax_ge q hq
  · -- class_id of the first event of that class
    have hsome : (dets.find? (fun d => d.className == c)).isSome :=
      List.find?_isSome.mpr ⟨d, hd, by simp [hdc]⟩
    obtain ⟨d0, hd0⟩ := Option.isSome_iff_exists.mp hsome
    refine ⟨d0, hd0, ?_⟩
    show firstClassId dets c = d0.classId
    simp [firstClassId, hd0]

/-- A concrete detection list used to witness the aggregation theorem. -/
def detsExample : List Detection :=
  [⟨"cat", 15, 9/10⟩, ⟨"dog", 16, 1/2⟩, ⟨"cat", 15, 7/10⟩]

theorem add_object_detections_summary_correct_witness :
    (∃ d ∈ detsExample, d.className = "cat") ∧
    (∃ row : ObjectSummaryRow,
      (objectSummaries detsExample).find? (fun r => r.className == "cat") = some row ∧
      (∀ r ∈ objectSummaries detsExample, r.className = "cat" → r = row) ∧
      row.className = "cat" ∧
      row.totalCount = (eventsOf detsExample "cat").length ∧
      row.avgConfidence
        = (confsOf detsExample "cat").sum / ((confsOf detsExample "cat").length : ℚ) ∧
      row.maxConfidence ∈ confsOf detsExample "cat" ∧
      (∀ q ∈ confsOf detsExample "cat", q ≤ row.maxConfidence) ∧
      (∃ d0, detsExample.find? (fun d => d.className == "cat") = some d0 ∧
        row.classId = d0.classId)) :=
  ⟨by decide, add_object_detections_summary_correct detsExample "cat" (by decide)⟩

/-! ## Face matching (`face_processor.py`, `detect_faces_in_image`)

Face encodings are kept abstract (a type `α`); `face_recognition.face_distance`
is an opaque collaborator modelled as a function `d : α → α → ℚ`.
`np.argmin` returns the index of the first occurrence of the minimum of a
nonempty array; `argminIdx` is that specification, written structurally. -/

/-- Index of the first minimum of a list (`np.argmin`; `[]` is unreachable in
the source since the gallery is nonempty at the call site). -/
def argminIdx : List ℚ → Nat
  | [] => 0
  | [_] => 0
  | x :: y :: ys =>
    if x ≤ (y :: ys).getD (argminIdx (y :: ys)) 0 then 0 else argminIdx (y :: ys) + 1

/-- The per-face recognition decision of `detect_faces_in_image`
(`face_processor.py` lines 105-128): the gallery is the paired
`known_face_names` / `known_face_encodings` lists, modelled as one list of
pairs.  `compare_faces` yields the Boolean list `distance ≤ tolerance`;
if any entry matches, `np.argmin` of the distance array is taken and, when
that entry also matches, its name and `1 - distance` are returned. -/
def codeMatch {α : Type} (d : α → α → ℚ) (known : List (String × α)) (q : α)
    (tol : ℚ) : Option String × Option ℚ :=
  if known.isEmpty then (none, none)
  else
    let matchList := known.map (fun k => decide (d q k.2 ≤ tol))
    if true ∈ matchList then
      let ds := known.map (fun k => d q k.2)
      let best := argminIdx ds
      if matchList.getD best false then
        (some ((known.map Prod.fst).getD best ""), some (1 - ds.getD best 0))
      else (none, none)
    else (none, none)

/-- The face-match decision as the specification words it (§4.4): keep the
candidates within tolerance, in gallery order; if none, `(null, null)`; else
the candidate of globally minimum distance, ties broken by earliest gallery
insertion order, with confidence `1 - distance`. -/
def specMatch {α : Type} (d : α → α → ℚ) (known : List (String × α)) (q : α)
    (tol : ℚ) : Option String × Option ℚ :=
  let cands := known.filter (fun k => decide (d q k.2 ≤ tol))
  if cands.isEmpty then (none, none)
  else
    let ds := cands.map (fun k => d q k.2)
    let i := argminIdx ds
    (some ((cands.map Prod.fst).getD i ""), some (1 - ds.getD i 0))

/-- First pair with minimal second component (ties keep the earlier pair). -/
def firstMinSnd : List (String × ℚ) → Option (String × ℚ)
  | [] => none
  | x :: xs =>
    match firstMinSnd xs with
    | none => some x
    | some y => if x.2 ≤ y.2 then some x else some y

theorem argminIdx_lt_length : ∀ (l : List ℚ), l ≠ [] → argminIdx l < l.length := by
  intro l
  induction l with
  | nil => intro h; exact absurd rfl h
  | cons x xs ih =>
    intro _
    match xs with
    | [] => simp [argminIdx]
    | y :: ys =>
      show (if x ≤ (y :: ys).getD (argminIdx (y :: ys)) 0 then 0
            else argminIdx (y :: ys) + 1) < (x :: y :: ys).length
      by_cases hle : x ≤ (y :: ys).getD (argminIdx (y :: ys)) 0
      · rw [if_pos hle]; exact Nat.succ_pos _
      · rw [if_neg hle]
        exact Nat.succ_lt_succ (ih (by simp))

theorem argminIdx_getD_le : ∀ (l : List ℚ), ∀ q ∈ l, l.getD (argminIdx l) 0 ≤ q := by
  intro l
  induction l with
  | nil => intro q hq; simp at hq
  | cons x xs ih =>
    intro q hq
    match xs with
    | [] =>
      rcases List.mem_singleton.mp hq with rfl
      simp [argminIdx]
    | y :: ys =>
      rw [show argminIdx (x :: y :: ys)
            = (if x ≤ (y :: ys).getD (argminIdx (y :: ys)) 0 then 0
               else argminIdx (y :: ys) + 1) from rfl]
      by_cases hle : x ≤ (y :: ys).getD (argminIdx (y :: ys)) 0
      · rw [if_pos hle]
        rcases List.mem_cons.mp hq with rfl | hq
        · simp
        · exact le_trans hle (by simpa using ih q hq)
      · rw [if_neg hle]
        have hgd : (x :: y :: ys).getD (argminIdx (y :: ys) + 1) 0
            = (y :: ys).getD (argminIdx (y :: ys)) 0 := rfl
        rw [hgd]
        rcases List.mem_cons.mp hq with rfl | hq
        · exact le_of_lt (lt_of_not_le hle)
        · exact ih q hq

theorem firstMinSnd_eq_argmin : ∀ (l : List (String × ℚ)), l ≠ [] →
    firstMinSnd l = some ((l.map Prod.fst).getD (argminIdx (l.map Prod.snd)) "",
      (l.map Prod.snd).getD (argminIdx (l.map Prod.snd)) 0) := by
  intro l
  induction l with
  | nil => intro h; exact absurd rfl h
  | cons x xs ih =>
    intro _
    match xs with
    | [] => simp [firstMinSnd, argminIdx]
    | y :: ys =>
      have hxs : firstMinSnd (y :: ys)
          = some (((y :: ys).map Prod.fst).getD (argminIdx ((y :: ys).map Prod.snd)) "",
              ((y :: ys).map Prod.snd).getD (argminIdx ((y :: ys).map Prod.snd)) 0) :=
        ih (by simp)
      show (match firstMinSnd (y :: ys) with
            | none => some x
            | some z => if x.2 ≤ z.2 then some x else some z) = _
      rw [hxs]
      by_cases hle : x.2 ≤ ((y :: ys).map Prod.snd).getD (argminIdx ((y :: ys).map Prod.snd)) 0
      · have hidx : argminIdx ((x :: y :: ys).map Prod.snd) = 0 := by
          show (if x.2 ≤ ((y :: ys).map Prod.snd).getD (argminIdx ((y :: ys).map Prod.snd)) 0
                then 0 else argminIdx ((y :: ys).map Prod.snd) + 1) = 0
          rw [if_pos hle]
        rw [hidx]
        show (if x.2 ≤ ((y :: ys).map Prod.snd).getD (argminIdx ((y :: ys).map Prod.snd)) 0
              then some x
              else some (((y :: ys).map Prod.fst).getD (argminIdx ((y :: ys).map Prod.snd)) "",
                ((y :: ys).map Prod.snd).getD (argminIdx ((y :: ys).map Prod.snd)) 0))
          = some (((x :: y :: ys).map Prod.fst).getD 0 "",
              ((x :: y :: ys).map Prod.snd).getD 0 0)
        rw [if_pos hle]
        rfl
      · have hidx : argminIdx ((x :: y :: ys).map Prod.snd)
            = argminIdx ((y :: ys).map Prod.snd) + 1 := by
          show (if x.2 ≤ ((y :: ys).map Prod.snd).getD (argminIdx ((y :: ys).map Prod.snd)) 0
                then 0 else argminIdx ((y :: ys).map Prod.snd) + 1)
            = argminIdx ((y :: ys).map Prod.snd) + 1
          rw [if_neg hle]
        rw [hidx]
        show (if x.2 ≤ ((y :: ys).map Prod.snd).getD (argminIdx ((y :: ys).map Prod.snd)) 0
              then some x
              else some (((y :: ys).map Prod.fst).getD (argminIdx ((y :: ys).map Prod.snd)) "",
                ((y :: ys).map Prod.snd).getD (argminIdx ((y :: ys).map Prod.snd)) 0))
          = some (((x :: y :: ys).map Prod.fst).getD (argminIdx ((y :: ys).map Prod.snd) + 1) "",
              ((x :: y :: ys).map Prod.snd).getD (argminIdx ((y :: ys).map Prod.snd) + 1) 0)
        rw [if_neg hle]
        rfl

theorem firstMinSnd_cons (x : String × ℚ) (xs : List (String × ℚ)) :
    firstMinSnd (x :: xs)
      = (match firstMinSnd xs with
         | none => some x
         | some y => if x.2 ≤ y.2 then some x else some y) := rfl

theorem firstMinSnd_mem : ∀ (l : List (String × ℚ)) (p : String × ℚ),
    firstMinSnd l = some p → p ∈ l := by
  intro l
  induction l with
  | nil => intro p hp; simp [firstMinSnd] at hp
  | cons x xs ih =>
    intro p hp
    rw [firstMinSnd_cons] at hp
    cases hx : firstMinSnd xs with
    | none =>
      rw [hx] at hp
      have hp2 : some x = some p := hp
      obtain rfl := Option.some.inj hp2
      exact List.mem_cons_self _ _
    | some y =>
      rw [hx] at hp
      have hp2 : (if x.2 ≤ y.2 then some x else some y) = some p := hp
      by_cases hle : x.2 ≤ y.2
      · rw [if_pos hle] at hp2
        obtain rfl := Option.some.inj hp2
        exact List.mem_cons_self _ _
      · rw [if_neg hle] at hp2
        obtain rfl := Option.some.inj hp2
        exact List.mem_cons_of_mem _ (ih _ hx)

theorem firstMinSnd_min : ∀ (l : List (String × ℚ)) (p : String × ℚ),
    firstMinSnd l = some p → ∀ r ∈ l, p.2 ≤ r.2 := by
  intro l
  induction l with
  | nil => intro p hp; simp [firstMinSnd] at hp
  | cons x xs ih =>
    intro p hp r hr
    rw [firstMinSnd_cons] at hp
    cases hx : firstMinSnd xs with
    | none =>
      rw [hx] at hp
      have hp2 : some x = some p := hp
      obtain rfl := Option.some.inj hp2
      have hxs : xs = [] := by
        cases xs with
        | nil => rfl
        | cons z zs =>
          rw [firstMinSnd_cons] at hx
          cases hz : firstMinSnd zs with
          | none =>
            rw [hz] at hx
            exact absurd (show (some z : Option (String × ℚ)) = none from hx) (by simp)
          | some y =>
            rw [hz] at hx
            have hx2 : (if z.2 ≤ y.2 then some z else some y) = none := hx
            by_cases h2 : z.2 ≤ y.2
            · rw [if_pos h2] at hx2; exact absurd hx2 (by simp)
            · rw [if_neg h2] at hx2; exact absurd hx2 (by simp)
      subst hxs
      rcases List.mem_singleton.mp hr with rfl
      exact le_refl _
    | some y =>
      rw [hx] at hp
      have hp2 : (if x.2 ≤ y.2 then some x else some y) = some p := hp
      by_cases hle : x.2 ≤ y.2
      · rw [if_pos hle] at hp2
        obtain rfl := Option.some.inj hp2
        rcases List.mem_cons.mp hr with rfl | hr2
        · exact le_refl _
        · exact le_trans hle (ih y hx r hr2)
      · rw [if_neg hle] at hp2
        obtain rfl := Option.some.inj hp2
        rcases List.mem_cons.mp hr with rfl | hr2
        · exact le_of_lt (lt_of_not_le hle)
        · exact ih y hx r hr2

theorem firstMinSnd_isSome : ∀ (l : List (String × ℚ)), l ≠ [] →
    ∃ p, firstMinSnd l = some p := by
  intro l h
  match l with
  | x :: xs =>
    rw [firstMinSnd_cons]
    cases hx : firstMinSnd xs with
    | none => exact ⟨x, rfl⟩
    | some y =>
      by_cases hle : x.2 ≤ y.2
      · exact ⟨x, show (if x.2 ≤ y.2 then some x else some y) = some x from if_pos hle⟩
      · exact ⟨y, show (if x.2 ≤ y.2 then some x else some y) = some y from if_neg hle⟩

theorem firstMinSnd_filter (tol : ℚ) :
    ∀ (l : List (String × ℚ)), (∃ p ∈ l, p.2 ≤ tol) →
    firstMinSnd (l.filter (fun p => decide (p.2 ≤ tol))) = firstMinSnd l := by
  intro l
  induction l with
  | nil => intro h; simp at h
  | cons x xs ih =>
    intro h
    by_cases hx : x.2 ≤ tol
    · have hfc : (x :: xs).filter (fun p => decide (p.2 ≤ tol))
          = x :: xs.filter (fun p => decide (p.2 ≤ tol)) := by
        simp [List.filter_cons, hx]
      rw [hfc, firstMinSnd_cons, firstMinSnd_cons]
      by_cases hxs : ∃ p ∈ xs, p.2 ≤ tol
      · rw [ih hxs]
      · have hfn : xs.filter (fun p => decide (p.2 ≤ tol)) = [] :=
          List.filter_eq_nil_iff.mpr
            (by intro a ha; simpa using fun hc => hxs ⟨a, ha, hc⟩)
        rw [hfn]
        cases hy : firstMinSnd xs with
        | none => rfl
        | some y =>
          have hymem := firstMinSnd_mem xs y hy
          have hyt : ¬ y.2 ≤ tol := fun hc => hxs ⟨y, hymem, hc⟩
          have hxy : x.2 ≤ y.2 := le_trans hx (le_of_lt (lt_of_not_le hyt))
          show some x = (if x.2 ≤ y.2 then some x else some y)
          rw [if_pos hxy]
    · have hfc : (x :: xs).filter (fun p => decide (p.2 ≤ tol))
          = xs.filter (fun p => decide (p.2 ≤ tol)) := by
        simp [List.filter_cons, hx]
      have hxs : ∃ p ∈ xs, p.2 ≤ tol := by
        obtain ⟨p, hp, hpt⟩ := h
        rcases List.mem_cons.mp hp with rfl | hp2
        · exact absurd hpt hx
        · exact ⟨p, hp2, hpt⟩
      have hne : xs ≠ [] := by
        obtain ⟨p, hp, h3⟩ := hxs; exact List.ne_nil_of_mem hp
      obtain ⟨y, hy⟩ := firstMinSnd_isSome xs hne
      rw [hfc, ih hxs, firstMinSnd_cons, hy]
      have hyt : y.2 ≤ tol := by
        obtain ⟨p, hp, hpt⟩ := hxs
        exact le_trans (firstMinSnd_min xs y hy p hp) hpt
      have hnxy : ¬ x.2 ≤ y.2 := fun hc => hx (le_trans hc hyt)
      show some y = (if x.2 ≤ y.2 then some x else some y)
      rw [if_neg hnxy]

/-- Getting at a valid index commutes with `map`: at a valid index (any default on the
source side). -/
theorem getD_map_eq {β γ : Type} (f : β → γ) (l : List β) (i : Nat)
    (hi : i < l.length) (d1 : β) (d2 : γ) :
    (l.map f).getD i d2 = f (l.getD i d1) := by
  rw [List.getD_eq_getElem?_getD, List.getD_eq_getElem?_getD, List.getElem?_map,
      List.getElem?_eq_getElem hi]
  rfl

/-- Restatement of `codeMatch` with its `let`-bindings inlined (definitional). -/
theorem codeMatch_def {α : Type} (d : α → α → ℚ) (known : List (String × α))
    (q : α) (tol : ℚ) :
    codeMatch d known q tol
      = (if known.isEmpty then (none, none)
         else if true ∈ known.map (fun k => decide (d q k.2 ≤ tol)) then
           if (known.map (fun k => decide (d q k.2 ≤ tol))).getD
               (argminIdx (known.map (fun k => d q k.2))) false then
             (some ((known.map Prod.fst).getD
                 (argminIdx (known.map (fun k => d q k.2))) ""),
              some (1 - (known.map (fun k => d q k.2)).getD
                 (argminIdx (known.map (fun k => d q k.2))) 0))
           else (none, none)
         else (none, none)) := rfl

/-- Restatement of `specMatch` with its `let`-bindings inlined (definitional). -/
theorem specMatch_def {α : Type} (d : α → α → ℚ) (known : List (String × α))
    (q : α) (tol : ℚ) :
    specMatch d known q tol
      = (if (known.filter (fun k => decide (d q k.2 ≤ tol))).isEmpty then (none, none)
         else
           (some (((known.filter (fun k => decide (d q k.2 ≤ tol))).map Prod.fst).getD
               (argminIdx ((known.filter (fun k => decide (d q k.2 ≤ tol))).map
                 (fun k => d q k.2))) ""),
            some (1 - ((known.filter (fun k => decide (d q k.2 ≤ tol))).map
                 (fun k => d q k.2)).getD
               (argminIdx ((known.filter (fun k => decide (d q k.2 ≤ tol))).map
                 (fun k => d q k.2))) 0))) := rfl

/-- C3: For every query encoding and every gallery, the face match
decision computed by `detect_faces_in_image` (global `argmin` over all
distances followed by a tolerance check) equals the two-phase rule of the
specification: if the gallery is empty or no entry is within tolerance the
result is `(null, null)`; otherwise the entry of globally minimum distance
among those within tolerance, ties broken by earliest gallery insertion
order, with confidence `1 - distance`. -/
theorem face_match_two_phase (α : Type) (d : α → α → ℚ) (known : List (String × α))
    (q : α) (tol : ℚ) :
    codeMatch d known q tol = specMatch d known q tol := by
  by_cases hk : known = []
  · subst hk; rfl
  · by_cases hcand : ∃ k ∈ known, d q k.2 ≤ tol
    · obtain ⟨k0, hk0, hk0t⟩ := hcand
      set pairs : List (String × ℚ) := known.map (fun k => (k.1, d q k.2)) with hpairs
      have hpne : pairs ≠ [] := by rw [hpairs]; simp [hk]
      have hsnd : pairs.map Prod.snd = known.map (fun k => d q k.2) := by
        rw [hpairs, List.map_map]; rfl
      have hfst : pairs.map Prod.fst = known.map Prod.fst := by
        rw [hpairs, List.map_map]; rfl
      have hpmem : ((k0.1, d q k0.2) : String × ℚ) ∈ pairs := by
        rw [hpairs]; exact List.mem_map.mpr ⟨k0, hk0, rfl⟩
      obtain ⟨pm, hpm⟩ := firstMinSnd_isSome pairs hpne
      have hpmmin := firstMinSnd_min pairs pm hpm
      have hpm_le : pm.2 ≤ tol := le_trans (hpmmin _ hpmem) hk0t
      have harg := firstMinSnd_eq_argmin pairs hpne
      rw [hpm] at harg
      have hpmval := Option.some.inj harg
      have hpm1 : pm.1 = (pairs.map Prod.fst).getD (argminIdx (pairs.map Prod.snd)) "" := by
        rw [hpmval]
      have hpm2 : pm.2 = (pairs.map Prod.snd).getD (argminIdx (pairs.map Prod.snd)) 0 := by
        rw [hpmval]
      -- the code side
      have hkne : ¬ (known.isEmpty = true) := by simp [List.isEmpty_iff, hk]
      have htm : true ∈ known.map (fun k => decide (d q k.2 ≤ tol)) :=
        List.mem_map.mpr ⟨k0, hk0, by simp [hk0t]⟩
      have hds_ne : known.map (fun k => d q k.2) ≠ [] := by simp [hk]
      have hlt : argminIdx (known.map (fun k => d q k.2)) < known.length := by
        have h5 := argminIdx_lt_length _ hds_ne
        simpa using h5
      have hml : (known.map (fun k => decide (d q k.2 ≤ tol))).getD
          (argminIdx (known.map (fun k => d q k.2))) false
          = decide (d q (known.getD (argminIdx (known.map (fun k => d q k.2))) k0).2 ≤ tol) :=
        getD_map_eq _ known _ hlt k0 false
      have hdg : (known.map (fun k => d q k.2)).getD
          (argminIdx (known.map (fun k => d q k.2))) 0
          = d q (known.getD (argminIdx (known.map (fun k => d q k.2))) k0).2 :=
        getD_map_eq _ known _ hlt k0 0
      have hminle : (known.map (fun k => d q k.2)).getD
          (argminIdx (known.map (fun k => d q k.2))) 0 ≤ tol := by
        have h6 : pm.2 = (known.map (fun k => d q k.2)).getD
            (argminIdx (known.map (fun k => d q k.2))) 0 := by
          rw [hpm2, hsnd]
        rw [← h6]; exact hpm_le
      have hpass : (known.map (fun k => decide (d q k.2 ≤ tol))).getD
          (argminIdx (known.map (fun k => d q k.2))) false = true := by
        rw [hml]
        exact decide_eq_true (by rw [← hdg]; exact hminle)
      have hcode : codeMatch d known q tol = (some pm.1, some (1 - pm.2)) := by
        rw [codeMatch_def, if_neg hkne, if_pos htm, if_pos hpass]
        rw [hpm1, hpm2, hsnd, hfst]
      -- the spec side
      have hc0 : k0 ∈ known.filter (fun k => decide (d q k.2 ≤ tol)) :=
        List.mem_filter.mpr ⟨hk0, by simp [hk0t]⟩
      have hcne : known.filter (fun k => decide (d q k.2 ≤ tol)) ≠ [] :=
        List.ne_nil_of_mem hc0
      have hcely : ¬ ((known.filter (fun k => decide (d q k.2 ≤ tol))).isEmpty = true) := by
        simp [List.isEmpty_iff, hcne]
      have hcp : (known.filter (fun k => decide (d q k.2 ≤ tol))).map
          (fun k => ((k.1, d q k.2) : String × ℚ))
          = pairs.filter (fun p => decide (p.2 ≤ tol)) := by
        rw [hpairs, List.filter_map]
        rfl
      have hfmc : firstMinSnd ((known.filter (fun k => decide (d q k.2 ≤ tol))).map
          (fun k => ((k.1, d q k.2) : String × ℚ))) = some pm := by
        rw [hcp, firstMinSnd_filter tol pairs ⟨_, hpmem, hk0t⟩, hpm]
      have hcpne : (known.filter (fun k => decide (d q k.2 ≤ tol))).map
          (fun k => ((k.1, d q k.2) : String × ℚ)) ≠ [] := by
        simp [hcne]
      have harg2 := firstMinSnd_eq_argmin _ hcpne
      rw [hfmc] at harg2
      have hval2 := Option.some.inj harg2
      have hsnd2 : ((known.filter (fun k => decide (d q k.2 ≤ tol))).map
          (fun k => ((k.1, d q k.2) : String × ℚ))).map Prod.snd
          = (known.filter (fun k => decide (d q k.2 ≤ tol))).map (fun k => d q k.2) := by
        rw [List.map_map]; rfl
      have hfst2 : ((known.filter (fun k => decide (d q k.2 ≤ tol))).map
          (fun k => ((k.1, d q k.2) : String × ℚ))).map Prod.fst
          = (known.filter (fun k => decide (d q k.2 ≤ tol))).map Prod.fst := by
        rw [List.map_map]; rfl
      have hpm1c : pm.1 = (((known.filter (fun k => decide (d q k.2 ≤ tol))).map
          (fun k => ((k.1, d q k.2) : String × ℚ))).map Prod.fst).getD
            (argminIdx (((known.filter (fun k => decide (d q k.2 ≤ tol))).map
              (fun k => ((k.1, d q k.2) : String × ℚ))).map Prod.snd)) "" := by
        rw [hval2]
      have hpm2c : pm.2 = (((known.filter (fun k => decide (d q k.2 ≤ tol))).map
          (fun k => ((k.1, d q k.2) : String × ℚ))).map Prod.snd).getD
            (argminIdx (((known.filter (fun k => decide (d q k.2 ≤ tol))).map
              (fun k => ((k.1, d q k.2) : String × ℚ))).map Prod.snd)) 0 := by
        rw [hval2]
      have hspec : specMatch d known q tol = (some pm.1, some (1 - pm.2)) := by
        rw [specMatch_def, if_neg hcely, hpm1c, hpm2c, hsnd2, hfst2]
      rw [hcode, hspec]
    · -- no entry within tolerance: both sides reject
      have hm : ¬ (true ∈ known.map (fun k => decide (d q k.2 ≤ tol))) := by
        intro hmem
        obtain ⟨k, hk2, hdk⟩ := List.mem_map.mp hmem
        exact hcand ⟨k, hk2, of_decide_eq_true hdk⟩
      have hf : known.filter (fun k => decide (d q k.2 ≤ tol)) = [] :=
        List.filter_eq_nil_iff.mpr
          (by intro k hk2; simpa using fun hc => hcand ⟨k, hk2, hc⟩)
      rw [codeMatch_def, specMatch_def, hf]
      by_cases hke : known.isEmpty
      · rw [if_pos hke]
        simp
      · rw [if_neg hke, if_neg hm]
        simp

/-! ## Face detection records (`face_processor.py`, `detect_faces_in_image`) -/

/-- A row of the `face_detections` table (the stored encoding bytes are not
modelled; encodings stay abstract). -/
structure FaceDet where
  locationTop : Int
  locationRight : Int
  locationBottom : Int
  locationLeft : Int
  confidence : ℚ
  recognizedName : Option String
  recognizedConfidence : Option ℚ
  deriving Repr, DecidableEq

/-- Model of `detect_faces_in_image` (`face_processor.py` lines 86-147): the external
locator/encoder collaborators supply the zipped list of
`(face_location, face_encoding)` pairs; each pair yields one record with the
bounding box `(top, right, bottom, left)`, the literal constant `1.0` as
detection confidence (line 139), and the recognition fields from the per-face
match decision of lines 105-128 (`codeMatch`). -/
def detect_faces_in_image {α : Type} (d : α → α → ℚ) (known : List (String × α))
    (tol : ℚ) (faces : List ((Int × Int × Int × Int) × α)) : List FaceDet :=
  faces.map fun f =>
    { locationTop := f.1.1
      locationRight := f.1.2.1
      locationBottom := f.1.2.2.1
      locationLeft := f.1.2.2.2
      confidence := 1
      recognizedName := (codeMatch d known f.2 tol).1
      recognizedConfidence := (codeMatch d known f.2 tol).2 }

/-- C10: For every image and every face found in it, the `FaceDetection`
record produced by `detect_faces_in_image` has its detection confidence field
set to the constant `1.0`, never an actual detector score. -/
theorem face_detection_confidence_always_one {α : Type} (d : α → α → ℚ)
    (known : List (String × α)) (tol : ℚ)
    (faces : List ((Int × Int × Int × Int) × α)) :
    ∀ fd ∈ detect_faces_in_image d known tol faces, fd.confidence = 1 := by
  intro fd hfd
  obtain ⟨f, hf, rfl⟩ := List.mem_map.mp hfd
  rfl

theorem face_detection_confidence_always_one_witness :
    (⟨0, 0, 0, 0, 1, none, none⟩ : FaceDet)
      ∈ detect_faces_in_image (fun _ _ : Unit => (0 : ℚ)) [] (3/5)
          [((0, 0, 0, 0), ())] ∧
    (⟨0, 0, 0, 0, 1, none, none⟩ : FaceDet).confidence = 1 :=
  ⟨by decide,
   face_detection_confidence_always_one (fun _ _ : Unit => (0 : ℚ)) [] (3/5)
     [((0, 0, 0, 0), ())] _ (by decide)⟩

/-! ## Per-photo database state (`database.py`) -/

/-- Whether Python finds the optional recognized name truthy
(`if d.get('recognized_name')`): a present, nonempty string. -/
def pyTruthyName : Option String → Bool
  | none => false
  | some s => !(s == "")

/-- The `face_summary` row. -/
structure FaceSummaryRow where
  totalFaces : Nat
  recognizedFaces : Nat
  unrecognizedFaces : Nat
  deriving Repr, DecidableEq

/-- The summary computed by `add_face_detections`
(`database.py` lines 562-564). -/
def faceSummaryOf (faces : List FaceDet) : FaceSummaryRow :=
  { totalFaces := faces.length
    recognizedFaces := (faces.filter (fun f => pyTruthyName f.recognizedName)).length
    unrecognizedFaces :=
      faces.length - (faces.filter (fun f => pyTruthyName f.recognizedName)).length }

/-- The `exif_data` row inserted by `add_photo`
(`database.py` lines 341-352); all fields nullable. -/
structure ExifData where
  cameraMake : Option String
  cameraModel : Option String
  dateTimeOriginal : Option String
  exposureTime : Option ℚ
  fNumber : Option ℚ
  isoSpeed : Option Int
  focalLength : Option ℚ
  gpsLatitude : Option ℚ
  gpsLongitude : Option ℚ
  gpsAltitude : Option ℚ
  software : Option String
  deriving Repr, DecidableEq

/-- The database rows attached to one photo. -/
structure PhotoState where
  exif : Option ExifData
  objectDetections : List Detection
  objectSummary : List ObjectSummaryRow
  faceDetections : List FaceDet
  faceSummary : Option FaceSummaryRow
  processedAt : Option Nat
  deriving Repr, DecidableEq

def emptyPhotoState : PhotoState :=
  { exif := none, objectDetections := [], objectSummary := [],
    faceDetections := [], faceSummary := none, processedAt := none }

/-- The EXIF step of `add_photo` (`database.py` lines 335-352): the extracted
tag dictionary is `extracted` (`none` models the empty dict).  Only when it is
nonempty (`if exif_data:`) is the existing row deleted and the new row
inserted; an empty extraction leaves any stored row untouched. -/
def add_photo_exif (st : PhotoState) (extracted : Option ExifData) : PhotoState :=
  match extracted with
  | some e => { st with exif := some e }
  | none => st

/-- Model of `add_object_detections` (`database.py` lines 363-421) as a transformer of
one photo's rows: delete the `object_detections` and `object_summary` rows,
insert the new events and the recomputed summaries, set `processed_at`. -/
def add_object_detections (st : PhotoState) (dets : List Detection)
    (now : Nat) : PhotoState :=
  { st with objectDetections := dets
            objectSummary := objectSummaries dets
            processedAt := some now }

/-- Model of `add_face_detections` (`database.py` lines 553-591): delete and re-insert
the face rows and the face summary. -/
def add_face_detections (st : PhotoState) (faces : List FaceDet) : PhotoState :=
  { st with faceDetections := faces
            faceSummary := some (faceSummaryOf faces) }

/-- The database effect of `process_single_image`
(`yolo_processor.py` lines 46-99) on one photo's rows, with the collaborator
outputs as inputs: `add_photo` (EXIF part), then `add_object_detections` only
when the detection list is nonempty (`if detections:`, line 80), then
`add_face_detections` only when the face list is nonempty
(`if face_detections:`, line 85). -/
def process_single_image_state (st : PhotoState) (extracted : Option ExifData)
    (dets : List Detection) (faces : List FaceDet) (now : Nat) : PhotoState :=
  let st1 := add_photo_exif st extracted
  let st2 := if dets.isEmpty then st1 else add_object_detections st1 dets now
  if faces.isEmpty then st2 else add_face_detections st2 faces

/-- C2 counterexample: Reprocessing a photo whose first run stored one
"person" detection with an empty second detection set leaves the old
`ObjectSummary` rows in place: the guard `if detections:` skips
`add_object_detections`, so nothing is deleted — the claim predicts an empty
summary set. -/
theorem reprocess_empty_set_retains_old_summary :
    (process_single_image_state
        (process_single_image_state emptyPhotoState none [⟨"person", 0, 4/5⟩] [] 0)
        none [] [] 1).objectSummary
      = objectSummaries [⟨"person", 0, 4/5⟩] ∧
    (process_single_image_state
        (process_single_image_state emptyPhotoState none [⟨"person", 0, 4/5⟩] [] 0)
        none [] [] 1).objectSummary ≠ [] := by
  constructor
  · rfl
  · decide

/-- C2 amended: Reprocessing a photo with detection set `A` and then
detection set `B` leaves the stored rows reflecting only `B` whenever `B` is
nonempty (and only the second face set when it is nonempty); when `B` is
empty the detection write is skipped entirely and the prior `ObjectSummary`
rows are retained. -/
theorem reprocess_nonempty_replaces (st : PhotoState) (eA eB : Option ExifData)
    (A B : List Detection) (fA fB : List FaceDet) (n1 n2 : Nat) (hB : B ≠ []) :
    ((process_single_image_state (process_single_image_state st eA A fA n1)
        eB B fB n2).objectSummary = objectSummaries B) ∧
    ((process_single_image_state (process_single_image_state st eA A fA n1)
        eB B fB n2).objectDetections = B) ∧
    ((process_single_image_state (process_single_image_state st eA A fA n1)
        eB B fB n2).processedAt = some n2) ∧
    (fB ≠ [] →
      (process_single_image_state (process_single_image_state st eA A fA n1)
          eB B fB n2).faceDetections = fB ∧
      (process_single_image_state (process_single_image_state st eA A fA n1)
          eB B fB n2).faceSummary = some (faceSummaryOf fB)) := by
  have hBe : B.isEmpty = false := by
    cases B with
    | nil => exact absurd rfl hB
    | cons a l => rfl
  cases eB with
  | none =>
    by_cases hf : fB.isEmpty = true
    · have hfB : fB = [] := List.isEmpty_iff.mp hf
      subst hfB
      simp [process_single_image_state, add_object_detections, add_face_detections,
        add_photo_exif, hBe]
    · have hfB : fB ≠ [] := fun hh => hf (by rw [hh]; rfl)
      simp [process_single_image_state, add_object_detections, add_face_detections,
        add_photo_exif, hBe, hf]
  | some e =>
    by_cases hf : fB.isEmpty = true
    · have hfB : fB = [] := List.isEmpty_iff.mp hf
      subst hfB
      simp [process_single_image_state, add_object_detections, add_face_detections,
        add_photo_exif, hBe]
    · have hfB : fB ≠ [] := fun hh => hf (by rw [hh]; rfl)
      simp [process_single_image_state, add_object_detections, add_face_detections,
        add_photo_exif, hBe, hf]

theorem reprocess_nonempty_replaces_witness :
    ([⟨"dog", 16, 1/2⟩] : List Detection) ≠ [] ∧
    (((process_single_image_state (process_single_image_state emptyPhotoState none
        [⟨"cat", 15, 9/10⟩] [] 0) none [⟨"dog", 16, 1/2⟩] [] 1).objectSummary
        = objectSummaries [⟨"dog", 16, 1/2⟩]) ∧
     ((process_single_image_state (process_single_image_state emptyPhotoState none
        [⟨"cat", 15, 9/10⟩] [] 0) none [⟨"dog", 16, 1/2⟩] [] 1).objectDetections
        = [⟨"dog", 16, 1/2⟩]) ∧
     ((process_single_image_state (process_single_image_state emptyPhotoState none
        [⟨"cat", 15, 9/10⟩] [] 0) none [⟨"dog", 16, 1/2⟩] [] 1).processedAt = some 1) ∧
     (([] : List FaceDet) ≠ [] →
       ((process_single_image_state (process_single_image_state emptyPhotoState none
          [⟨"cat", 15, 9/10⟩] [] 0) none [⟨"dog", 16, 1/2⟩] [] 1).faceDetections = []) ∧
       ((process_single_image_state (process_single_image_state emptyPhotoState none
          [⟨"cat", 15, 9/10⟩] [] 0) none [⟨"dog", 16, 1/2⟩] [] 1).faceSummary
          = some (faceSummaryOf [])))) :=
  ⟨by decide,
   reprocess_nonempty_replaces emptyPhotoState none none [⟨"cat", 15, 9/10⟩]
     [⟨"dog", 16, 1/2⟩] [] [] 0 1 (by decide)⟩

/-- An EXIF record as stored by a first ingestion. -/
def exifExampleA : ExifData :=
  { cameraMake := some "Canon", cameraModel := some "EOS R5",
    dateTimeOriginal := some "2023-05-01T10:00:00", exposureTime := some (1/200),
    fNumber := some (28/10), isoSpeed := some 100, focalLength := some 50,
    gpsLatitude := none, gpsLongitude := none, gpsAltitude := none,
    software := none }

/-- C5 counterexample: Re-ingesting a photo whose EXIF extraction finds
nothing leaves the previously stored `ExifRecord` in place — the claim
predicts it is replaced by none (deleted). -/
theorem reingest_empty_extraction_keeps_old_exif :
    (add_photo_exif (add_photo_exif emptyPhotoState (some exifExampleA)) none).exif
      = some exifExampleA := rfl

/-- C5 amended: On ingestion, any existing `ExifRecord` is deleted and
replaced by the newly extracted one whenever extraction found at least one
field; when extraction found nothing the stored record is left untouched (so
it may still reflect a previous ingestion). -/
theorem add_photo_exif_replace_semantics (st : PhotoState) (e1 : Option ExifData)
    (e2 : Option ExifData) :
    (∀ x, e2 = some x → (add_photo_exif (add_photo_exif st e1) e2).exif = some x) ∧
    (e2 = none → (add_photo_exif (add_photo_exif st e1) e2).exif
      = (add_photo_exif st e1).exif) := by
  cases e1 <;> cases e2 <;>
    simp [add_photo_exif]

theorem add_photo_exif_replace_semantics_witness :
    (add_photo_exif (add_photo_exif emptyPhotoState (some exifExampleA))
        (some { exifExampleA with cameraMake := some "Nikon" })).exif
      = some { exifExampleA with cameraMake := some "Nikon" } :=
  (add_photo_exif_replace_semantics emptyPhotoState (some exifExampleA)
    (some { exifExampleA with cameraMake := some "Nikon" })).1 _ rfl

/-! ## Single-file processing control flow (`yolo_processor.py`,
`process_single_image`; `face_processor.py`, `detect_faces_in_image`) -/

/-- The per-photo result dictionary returned by `process_single_image`
(lines 88-95). -/
structure ProcResult where
  photoId : Nat
  filePath : String
  detectionsCount : Nat
  faceDetectionsCount : Nat
  detections : List Detection
  faceDetections : List FaceDet
  deriving Repr, DecidableEq

/-- The blanket exception handler of `detect_faces_in_image`
(`face_processor.py` lines 149-151): any failure inside the face step is
caught, logged, and an empty list is returned. -/
def detect_faces_guarded (r : Except String (List FaceDet)) : List FaceDet :=
  match r with
  | .ok l => l
  | .error _ => []

/-- Control flow of `process_single_image` (`yolo_processor.py` lines 46-99)
with each collaborator outcome as a parameter: `add_photo`, the YOLO call,
and the two database commits may raise (`Except.error`); the `try/except`
re-raises any such failure.  The face step goes through
`detect_faces_guarded`, so it cannot raise. -/
def process_single_imageE (photoR : Except String Nat)
    (yoloR : Except String (List Detection)) (objCommit : Except String Unit)
    (faceR : Except String (List FaceDet)) (faceCommit : Except String Unit)
    (path : String) : Except String ProcResult := do
  let pid ← photoR
  let dets ← yoloR
  let _ ← (if dets.isEmpty then Except.ok () else objCommit)
  let faces := detect_faces_guarded faceR
  let _ ← (if faces.isEmpty then Except.ok () else faceCommit)
  Except.ok { photoId := pid, filePath := path,
              detectionsCount := dets.length,
              faceDetectionsCount := faces.length,
              detections := dets, faceDetections := faces }

/-- C6 counterexample: A failure of the face detection/encoding step
does not make `process_single_image` raise: the exception is swallowed inside
`detect_faces_in_image` and the call returns a normal result with zero
faces — the claim predicts the call raises. -/
theorem face_step_failure_still_returns_result :
    process_single_imageE (.ok 1) (.ok []) (.ok ()) (.error "encode failure")
        (.ok ()) "img.jpg"
      = Except.ok
          { photoId := 1, filePath := "img.jpg", detectionsCount := 0,
            faceDetectionsCount := 0, detections := [], faceDetections := [] } := rfl

/-- C6 amended: In `process_single_image`, a failure of the photo
upsert, the object-detection call, or either database commit propagates to
the caller; a failure of the face detection/encoding step alone is caught
inside `detect_faces_in_image`, yields an empty face list, and the call
returns a result rather than raising. -/
theorem process_single_image_error_propagation (photoR : Except String Nat)
    (yoloR : Except String (List Detection)) (objCommit : Except String Unit)
    (faceR : Except String (List FaceDet)) (faceCommit : Except String Unit)
    (path : String) (msg : String) :
    (photoR = .error msg →
      process_single_imageE photoR yoloR objCommit faceR faceCommit path
        = .error msg) ∧
    (∀ pid, photoR = .ok pid → yoloR = .error msg →
      process_single_imageE photoR yoloR objCommit faceR faceCommit path
        = .error msg) ∧
    (∀ pid dets, photoR = .ok pid → yoloR = .ok dets → dets ≠ [] →
      objCommit = .error msg →
      process_single_imageE photoR yoloR objCommit faceR faceCommit path
        = .error msg) ∧
    (∀ pid dets, photoR = .ok pid → yoloR = .ok dets →
      (dets = [] ∨ objCommit = .ok ()) → faceR = .error msg →
      process_single_imageE photoR yoloR objCommit faceR faceCommit path
        = Except.ok
            { photoId := pid, filePath := path, detectionsCount := dets.length,
              faceDetectionsCount := 0, detections := dets,
              faceDetections := [] }) ∧
    (∀ pid dets faces, photoR = .ok pid → yoloR = .ok dets →
      (dets = [] ∨ objCommit = .ok ()) → faceR = .ok faces → faces ≠ [] →
      faceCommit = .error msg →
      process_single_imageE photoR yoloR objCommit faceR faceCommit path
        = .error msg) := by
  refine ⟨?_, ?_, ?_, ?_, ?_⟩
  · intro h; subst h; rfl
  · intro pid h1 h2; subst h1; subst h2; rfl
  · intro pid dets h1 h2 h3 h4
    subst h1; subst h2; subst h4
    cases dets with
    | nil => exact absurd rfl h3
    | cons a l => rfl
  · intro pid dets h1 h2 h3 h4
    subst h1; subst h2; subst h4
    rcases h3 with rfl | h3
    · rfl
    · subst h3
      cases dets with
      | nil => rfl
      | cons a l => rfl
  · intro pid dets faces h1 h2 h3 h4 h5 h6
    subst h1; subst h2; subst h4; subst h6
    rcases h3 with rfl | h3
    · cases faces with
      | nil => exact absurd rfl h5
      | cons a l => rfl
    · subst h3
      cases dets with
      | nil =>
        cases faces with
        | nil => exact absurd rfl h5
        | cons a l => rfl
      | cons a l =>
        cases faces with
        | nil => exact absurd rfl h5
        | cons b m => rfl

theorem process_single_image_error_propagation_witness :
    process_single_imageE (.error "db down") (.ok []) (.ok ()) (.ok []) (.ok ())
        "img.jpg"
      = .error "db down" :=
  (process_single_image_error_propagation (.error "db down") (.ok []) (.ok ())
    (.ok []) (.ok ()) "img.jpg" "db down").1 rfl

/-! ## Directory crawl (`yolo_processor.py`, `process_directory`
lines 118-129)

The filesystem is abstracted as the list of (visible) file paths under the
root; the glob pattern `**/*{ext}` is modelled as a suffix match of `ext`
against the path. -/

/-- Python `str.upper()` (ASCII; extension lists are ASCII). -/
def pyUpper (s : String) : String := ⟨s.data.map Char.toUpper⟩

/-- Python `str.lower()` (ASCII). -/
def pyLower (s : String) : String := ⟨s.data.map Char.toLower⟩

/-- Suffix test used to model the glob `**/*{ext}`. -/
def sEndsWith (s suf : String) : Bool := suf.data.isSuffixOf s.data

/-- The glob loop of `process_directory` (lines 119-125): for each extension,
the files matching the extension as given and the files matching the
upper-cased extension, all concatenated. -/
def crawlMatches (files : List String) (exts : List String) : List String :=
  exts.foldl (fun acc e =>
    acc ++ files.filter (fun p => sEndsWith p e)
        ++ files.filter (fun p => sEndsWith p (pyUpper e))) []

/-- Dedup and sort: `image_files = list(set(image_files)); image_files.sort()`
(lines 128-129): the sorted list of the distinct matched paths. -/
def process_directory_files (files : List String) (exts : List String) : List String :=
  ((crawlMatches files exts).dedup).insertionSort (· ≤ ·)

/-- Case-insensitive extension match, as the claim words it ("any mixture of
upper and lower case"); written from the specification for comparison with
the code's behaviour. -/
def extMatchesCI (p e : String) : Bool := sEndsWith (pyLower p) (pyLower e)

/-- C7 counterexample: A file with a mixed-case extension (`a.Jpg`)
matches `.jpg` case-insensitively, yet the crawl enumerates nothing: the code
only tries the extension as given and fully upper-cased. -/
theorem mixed_case_extension_not_enumerated :
    extMatchesCI "photos/a.Jpg" ".jpg" = true ∧
    process_directory_files ["photos/a.Jpg"] [".jpg"] = [] := by
  constructor
  · decide
  · decide

theorem mem_crawl_aux (files : List String) :
    ∀ (exts : List String) (acc : List String) (p : String),
      p ∈ exts.foldl (fun acc e =>
          acc ++ files.filter (fun p => sEndsWith p e)
              ++ files.filter (fun p => sEndsWith p (pyUpper e))) acc
        ↔ p ∈ acc ∨ (p ∈ files ∧ ∃ e ∈ exts,
            sEndsWith p e = true ∨ sEndsWith p (pyUpper e) = true) := by
  intro exts
  induction exts with
  | nil => intro acc p; simp
  | cons e exts ih =>
    intro acc p
    rw [List.foldl_cons, ih]
    simp only [List.mem_append, List.mem_filter, List.mem_cons]
    constructor
    · rintro (((h | ⟨h1, h2⟩) | ⟨h1, h2⟩) | ⟨h1, e2, he2, h2⟩)
      · exact Or.inl h
      · exact Or.inr ⟨h1, e, Or.inl rfl, Or.inl h2⟩
      · exact Or.inr ⟨h1, e, Or.inl rfl, Or.inr h2⟩
      · exact Or.inr ⟨h1, e2, Or.inr he2, h2⟩
    · rintro (h | ⟨h1, e2, (rfl | he2), h2⟩)
      · exact Or.inl (Or.inl (Or.inl h))
      · rcases h2 with h2 | h2
        · exact Or.inl (Or.inl (Or.inr ⟨h1, h2⟩))
        · exact Or.inl (Or.inr ⟨h1, h2⟩)
      · exact Or.inr ⟨h1, e2, he2, h2⟩

/-- C7 amended: The directory crawl enumerates exactly the files under
the root whose name ends with an extension of the list either as given or
fully upper-cased (not an arbitrary mixture of cases), deduplicates the
resulting paths, and processes them in lexicographically sorted order. -/
theorem process_directory_files_spec (files exts : List String) :
    (∀ p, p ∈ process_directory_files files exts ↔
      (p ∈ files ∧ ∃ e ∈ exts,
        sEndsWith p e = true ∨ sEndsWith p (pyUpper e) = true)) ∧
    List.Sorted (· ≤ ·) (process_directory_files files exts) ∧
    (process_directory_files files exts).Nodup := by
  refine ⟨?_, ?_, ?_⟩
  · intro p
    unfold process_directory_files
    rw [List.Perm.mem_iff (List.perm_insertionSort _ _), List.mem_dedup]
    rw [show crawlMatches files exts
          = exts.foldl (fun acc e =>
              acc ++ files.filter (fun p => sEndsWith p e)
                  ++ files.filter (fun p => sEndsWith p (pyUpper e))) [] from rfl]
    rw [mem_crawl_aux]
    simp
  · exact List.sorted_insertionSort _ _
  · exact (List.Perm.nodup_iff (List.perm_insertionSort _ _)).mpr
      (List.nodup_dedup _)

/-! ## Batch processing (`yolo_processor.py`, `process_directory`
lines 137-167, and `_is_image_already_processed` lines 169-195) -/

/-- A row of the `photos` table as read by `_is_image_already_processed`:
the path and the nullable `processed_at` timestamp. -/
structure CatalogPhoto where
  filePath : String
  processedAt : Option Nat
  deriving Repr, DecidableEq

/-- Model of `_is_image_already_processed` (lines 169-195): the photo row for the path
(first row matching `file_path`), true exactly when it exists and its
`processed_at` is non-null. -/
def is_image_already_processed (catalog : List CatalogPhoto) (p : String) : Bool :=
  match catalog.find? (fun r => r.filePath == p) with
  | some r => r.processedAt.isSome
  | none => false

/-- A per-file result of the batch loop (lines 142-164). -/
structure FileResult where
  filePath : String
  status : String
  errorMsg : Option String
  detectionsCount : Nat
  deriving Repr, DecidableEq

/-- The body of the batch loop for one path (lines 137-164): skip when not
forcing and the photo is already processed; otherwise run
`process_single_image` — abstracted as `runOne`, returning the detection
count or raising — and record `processed`, or catch the exception and record
`error`. -/
def processFileStep (force : Bool) (catalog : List CatalogPhoto)
    (runOne : String → Except String Nat) (p : String) : FileResult :=
  if !force && is_image_already_processed catalog p then
    { filePath := p, status := "skipped", errorMsg := none, detectionsCount := 0 }
  else
    match runOne p with
    | .ok n =>
      { filePath := p, status := "processed", errorMsg := none, detectionsCount := n }
    | .error e =>
      { filePath := p, status := "error", errorMsg := some e, detectionsCount := 0 }

/-- Model of the `process_directory` loop over the enumerated files: one result per
file, in order. -/
def process_directory_results (force : Bool) (catalog : List CatalogPhoto)
    (runOne : String → Except String Nat) (files : List String) : List FileResult :=
  files.map (processFileStep force catalog runOne)

theorem processFileStep_filePath (force : Bool) (catalog : List CatalogPhoto)
    (runOne : String → Except String Nat) (f : String) :
    (processFileStep force catalog runOne f).filePath = f := by
  unfold processFileStep
  by_cases h : (!force && is_image_already_processed catalog f) = true
  · rw [if_pos h]
  · rw [if_neg h]
    cases runOne f with
    | ok n => rfl
    | error e => rfl

/-- C8: In a batch run with `force=false`, every path whose photo already
exists in the catalog with non-null `processed_at` gets a `skipped` result,
and neither `process_single_image` nor the detector/encoder collaborators are
invoked for it: the per-file step is independent of `runOne`. -/
theorem skip_already_processed (catalog : List CatalogPhoto)
    (runOne runOne2 : String → Except String Nat) (files : List String)
    (p : String) (row : CatalogPhoto) (t : Nat)
    (hfind : catalog.find? (fun r => r.filePath == p) = some row)
    (hproc : row.processedAt = some t) :
    (∀ r ∈ process_directory_results false catalog runOne files,
      r.filePath = p → r.status = "skipped" ∧ r.errorMsg = none) ∧
    processFileStep false catalog runOne p = processFileStep false catalog runOne2 p := by
  have hip : is_image_already_processed catalog p = true := by
    unfold is_image_already_processed
    rw [hfind]
    show row.processedAt.isSome = true
    rw [hproc]
    rfl
  constructor
  · intro r hr hrp
    obtain ⟨f, hf, rfl⟩ := List.mem_map.mp hr
    have hfp : f = p := by
      rw [processFileStep_filePath] at hrp
      exact hrp
    subst hfp
    unfold processFileStep
    rw [if_pos (by simp [hip])]
    exact ⟨rfl, rfl⟩
  · unfold processFileStep
    rw [if_pos (by simp [hip]), if_pos (by simp [hip])]

theorem skip_already_processed_witness :
    ((List.find? (fun r => r.filePath == "d/x.jpg")
        [⟨"d/x.jpg", some 5⟩] : Option CatalogPhoto)
      = some ⟨"d/x.jpg", some 5⟩) ∧
    (CatalogPhoto.processedAt ⟨"d/x.jpg", some 5⟩ = some 5) ∧
    ((∀ r ∈ process_directory_results false [⟨"d/x.jpg", some 5⟩]
        (fun _ => Except.ok 3) ["d/x.jpg"],
      r.filePath = "d/x.jpg" → r.status = "skipped" ∧ r.errorMsg = none) ∧
    processFileStep false [⟨"d/x.jpg", some 5⟩] (fun _ => Except.ok 3) "d/x.jpg"
      = processFileStep false [⟨"d/x.jpg", some 5⟩]
          (fun _ => Except.error "boom") "d/x.jpg") :=
  ⟨by decide, by decide,
   skip_already_processed [⟨"d/x.jpg", some 5⟩] (fun _ => Except.ok 3)
     (fun _ => Except.error "boom") ["d/x.jpg"] "d/x.jpg" ⟨"d/x.jpg", some 5⟩ 5
     (by decide) (by decide)⟩

/-- C9: In a batch run, a path whose processing raises gets a per-file
`error` result carrying the diagnostic message; the batch is never aborted:
there is exactly one result per enumerated file and every file keeps its
result. -/
theorem batch_error_isolation (force : Bool) (catalog : List CatalogPhoto)
    (runOne : String → Except String Nat) (files : List String)
    (p : String) (msg : String)
    (hrun : runOne p = .error msg)
    (hskip : force = true ∨ is_image_already_processed catalog p = false) :
    (process_directory_results force catalog runOne files).length = files.length ∧
    (∀ q ∈ files, ∃ r ∈ process_directory_results force catalog runOne files,
      r.filePath = q) ∧
    (∀ r ∈ process_directory_results force catalog runOne files,
      r.filePath = p → r.status = "error" ∧ r.errorMsg = some msg) := by
  refine ⟨by simp [process_directory_results], ?_, ?_⟩
  · intro q hq
    exact ⟨processFileStep force catalog runOne q,
      List.mem_map.mpr ⟨q, hq, rfl⟩,
      processFileStep_filePath force catalog runOne q⟩
  · intro r hr hrp
    obtain ⟨f, hf, rfl⟩ := List.mem_map.mp hr
    have hfp : f = p := by
      rw [processFileStep_filePath] at hrp
      exact hrp
    subst hfp
    unfold processFileStep
    have hcond : (!force && is_image_already_processed catalog f) = false := by
      rcases hskip with rfl | h
      · rfl
      · simp [h]
    rw [if_neg (by simp [hcond]), hrun]
    exact ⟨rfl, rfl⟩

theorem batch_error_isolation_witness :
    ((fun _ : String => Except.error "unreadable" : String → Except String Nat)
        "d/bad.jpg" = Except.error "unreadable") ∧
    (true = true ∨ is_image_already_processed [] "d/bad.jpg" = false) ∧
    ((process_directory_results true []
        (fun _ => Except.error "unreadable") ["d/a.jpg", "d/bad.jpg"]).length
      = (["d/a.jpg", "d/bad.jpg"] : List String).length ∧
    (∀ q ∈ (["d/a.jpg", "d/bad.jpg"] : List String),
      ∃ r ∈ process_directory_results true []
        (fun _ => Except.error "unreadable") ["d/a.jpg", "d/bad.jpg"],
        r.filePath = q) ∧
    (∀ r ∈ process_directory_results true []
        (fun _ => Except.error "unreadable") ["d/a.jpg", "d/bad.jpg"],
      r.filePath = "d/bad.jpg" → r.status = "error" ∧ r.errorMsg = some "unreadable")) :=
  ⟨rfl, Or.inl rfl,
   batch_error_isolation true [] (fun _ => Except.error "unreadable")
     ["d/a.jpg", "d/bad.jpg"] "d/bad.jpg" "unreadable" rfl (Or.inl rfl)⟩

/-! ## EXIF datetime validation (`database.py`,
`_validate_and_parse_datetime` lines 608-644)

Python string operations are modelled on `List Char`; `datetime.strptime`
with format `"%Y:%m:%d %H:%M:%S"` is modelled by the regular expression
CPython's `_strptime` builds for that format (`%Y` = exactly four digits,
two-digit fields per their alternations, whitespace in the format matching a
run of whitespace), followed by the `datetime` constructor's validity
checks. -/

/-- Python whitespace (`str.strip`, regex `\s`) for the ASCII range. -/
def pyWsChar (c : Char) : Bool :=
  c = ' ' || c = '\t' || c = '\n' || c = '\r' || c = '\x0b' || c = '\x0c'

/-- Python `str.strip()`. -/
def pyStrip (s : String) : String :=
  ⟨((s.data.dropWhile pyWsChar).reverse.dropWhile pyWsChar).reverse⟩

def splitCharAux (sep : Char) : List Char → List Char → List (List Char)
  | [], acc => [acc.reverse]
  | c :: rest, acc =>
    if c = sep then acc.reverse :: splitCharAux sep rest []
    else splitCharAux sep rest (c :: acc)

/-- Python `str.split(sep)` for a one-character separator (keeps empty
pieces). -/
def pySplitChar (sep : Char) (l : List Char) : List (List Char) :=
  splitCharAux sep l []

/-- Does the first list start with the second (`str.startswith`)? -/
def startsWithL : List Char → List Char → Bool
  | _, [] => true
  | [], _ :: _ => false
  | a :: s1, b :: p1 => a == b && startsWithL s1 p1

/-- Does the second list occur inside the first (Python `in`)? -/
def containsL : List Char → List Char → Bool
  | [], pat => startsWithL [] pat
  | c :: rest, pat => startsWithL (c :: rest) pat || containsL rest pat

def allDigits (l : List Char) : Bool := l.all Char.isDigit

def digitsVal (l : List Char) : Nat :=
  l.foldl (fun a c => a * 10 + (c.toNat - 48)) 0

structure PyDateTime where
  year : Nat
  month : Nat
  day : Nat
  hour : Nat
  minute : Nat
  second : Nat
  deriving Repr, DecidableEq

/-- Directive `%Y`: exactly four digits. -/
def parseYear (l : List Char) : Option Nat :=
  if l.length = 4 && allDigits l then some (digitsVal l) else none

/-- A one-or-two-digit field whose value must lie in `[lo, hi]` (the
`%m`/`%d`/`%H`/`%M`/`%S` alternations of `_strptime`). -/
def parseField2 (lo hi : Nat) (l : List Char) : Option Nat :=
  if (l.length = 1 || l.length = 2) && allDigits l then
    if lo ≤ digitsVal l && digitsVal l ≤ hi then some (digitsVal l) else none
  else none

def isLeapYear (y : Nat) : Bool :=
  y % 4 = 0 && (!(y % 100 = 0) || y % 400 = 0)

def daysInMonth (y m : Nat) : Nat :=
  if m = 2 then (if isLeapYear y then 29 else 28)
  else if m = 4 || m = 6 || m = 9 || m = 11 then 30
  else 31

/-- The `datetime(...)` constructor checks applied on top of the regex
capture: year in `[MINYEAR, MAXYEAR]`, day no larger than the month length,
second at most 59 (the regex admits leap seconds 60-61, the constructor
rejects them). -/
def mkDateTime (y mo dd hh mi ss : Nat) : Option PyDateTime :=
  if 1 ≤ y && y ≤ 9999 && dd ≤ daysInMonth y mo && ss ≤ 59 then
    some ⟨y, mo, dd, hh, mi, ss⟩
  else none

/-- Model of `datetime.strptime(s, "%Y:%m:%d %H:%M:%S")`, `none` for any
`ValueError`.  The separators `:` and the whitespace run are not digits, so
the regex match decomposes uniquely into digit runs. -/
def strptimeExif (l : List Char) : Option PyDateTime :=
  let tok1 := l.takeWhile (fun c => !pyWsChar c)
  let rest1 := l.drop tok1.length
  let wsrun := rest1.takeWhile pyWsChar
  let tok2 := rest1.drop wsrun.length
  if tok1.isEmpty || wsrun.isEmpty || tok2.isEmpty || tok2.any pyWsChar then none
  else
    match pySplitChar ':' tok1, pySplitChar ':' tok2 with
    | [ys, ms, ds], [hs, mis, ss] =>
      match parseYear ys, parseField2 1 12 ms, parseField2 1 31 ds,
            parseField2 0 23 hs, parseField2 0 59 mis, parseField2 0 61 ss with
      | some y, some mo, some dd, some hh, some mi, some s2 =>
        mkDateTime y mo dd hh mi s2
      | _, _, _, _, _, _ => none
    | _, _ => none

/-- Mixed-radix key giving the `datetime` order (valid because every
component stays below its radix: month ≤ 12 < 13, day ≤ 31 < 32,
hour ≤ 23, minute and second ≤ 59). -/
def dtKey (d : PyDateTime) : Nat :=
  ((((d.year * 13 + d.month) * 32 + d.day) * 24 + d.hour) * 60 + d.minute) * 60
    + d.second

/-- Range check `datetime(1900, 1, 1) <= parsed_date <= datetime(2100, 12, 31)`
(`database.py` lines 632-634; both bounds are midnight instants). -/
def inRangeDT (d : PyDateTime) : Bool :=
  dtKey ⟨1900, 1, 1, 0, 0, 0⟩ ≤ dtKey d && dtKey d ≤ dtKey ⟨2100, 12, 31, 0, 0, 0⟩

def pad2 (n : Nat) : String := if n < 10 then "0" ++ toString n else toString n

def pad4 (n : Nat) : String :=
  if n < 10 then "000" ++ toString n
  else if n < 100 then "00" ++ toString n
  else if n < 1000 then "0" ++ toString n
  else toString n

/-- Model of `datetime.isoformat()` for a whole-second datetime. -/
def isoFormat (d : PyDateTime) : String :=
  pad4 d.year ++ "-" ++ pad2 d.month ++ "-" ++ pad2 d.day ++ "T" ++
    pad2 d.hour ++ ":" ++ pad2 d.minute ++ ":" ++ pad2 d.second

/-- The zeroed-date/zeroed-time check of `_validate_and_parse_datetime`
(`database.py` lines 620-627): it fires only when the string contains
`"0000"` or `":00:00:00"` as a substring, and then only if the first
space-separated component starts with `"0000"` or the second equals
`"00:00:00"`. -/
def zeroedCheck (t : String) : Bool :=
  (containsL t.data "0000".data || containsL t.data ":00:00:00".data)
  && (match pySplitChar ' ' t.data with
      | p0 :: p1 :: _ => startsWithL p0 "0000".data || p1 == "00:00:00".data
      | _ => false)

/-- Model of `_validate_and_parse_datetime` (`database.py` lines 608-644): strip, the
sentinel membership test, the zeroed check, strict parsing, the range check,
and ISO-8601 normalisation. -/
def validate_and_parse_datetime (s : String) : Option String :=
  let t := pyStrip s
  if t = "0000:00:00 00:00:00" ∨ t = "0000:00:00" ∨ t = "" then none
  else if zeroedCheck t then none
  else
    match strptimeExif t.data with
    | none => none
    | some dt => if inRangeDT dt then some (isoFormat dt) else none

theorem validate_and_parse_datetime_def (s : String) :
    validate_and_parse_datetime s
      = (if pyStrip s = "0000:00:00 00:00:00" ∨ pyStrip s = "0000:00:00"
            ∨ pyStrip s = "" then none
         else if zeroedCheck (pyStrip s) then none
         else
           match strptimeExif (pyStrip s).data with
           | none => none
           | some dt => if inRangeDT dt then some (isoFormat dt) else none) := rfl

/-- C4 counterexample: A timestamp whose time component is `00:00:00`
but whose text contains neither `"0000"` nor `":00:00:00"` as a substring
passes validation and is normalised — the claim predicts null for any
`00:00:00` time. -/
theorem zero_time_still_validates :
    validate_and_parse_datetime "2023:05:01 00:00:00"
      = some "2023-05-01T00:00:00" := by
  rfl

/-- C4 amended: Datetime validation returns null when the trimmed value
equals the sentinel `"0000:00:00 00:00:00"`, when the zeroed check fires
(which requires the trimmed value to contain `"0000"` or `":00:00:00"` as a
substring, and then its first space-separated component to start with
`"0000"` or its second to equal `"00:00:00"` — a `00:00:00` time alone does
not trigger it), when strict parsing in format `YYYY:MM:DD HH:MM:SS` fails,
or when the parsed value lies outside
`[1900-01-01T00:00:00, 2100-12-31T00:00:00]`; otherwise it returns the value
normalised to an ISO-8601 string. -/
theorem validate_and_parse_datetime_cases (s : String) :
    (pyStrip s = "0000:00:00 00:00:00" → validate_and_parse_datetime s = none) ∧
    (zeroedCheck (pyStrip s) = true → validate_and_parse_datetime s = none) ∧
    (strptimeExif (pyStrip s).data = none → validate_and_parse_datetime s = none) ∧
    (∀ dt, strptimeExif (pyStrip s).data = some dt → inRangeDT dt = false →
      validate_and_parse_datetime s = none) ∧
    (∀ dt, strptimeExif (pyStrip s).data = some dt → inRangeDT dt = true →
      ¬ (pyStrip s = "0000:00:00 00:00:00" ∨ pyStrip s = "0000:00:00"
          ∨ pyStrip s = "") →
      zeroedCheck (pyStrip s) = false →
      validate_and_parse_datetime s = some (isoFormat dt)) := by
  rw [validate_and_parse_datetime_def]
  by_cases hs : pyStrip s = "0000:00:00 00:00:00" ∨ pyStrip s = "0000:00:00"
      ∨ pyStrip s = ""
  · rw [if_pos hs]
    exact ⟨fun _ => rfl, fun _ => rfl, fun _ => rfl, fun _ _ _ => rfl,
      fun dt _ _ hns _ => absurd hs hns⟩
  · rw [if_neg hs]
    by_cases hz : zeroedCheck (pyStrip s) = true
    · rw [if_pos hz]
      refine ⟨fun h1 => absurd (Or.inl h1) hs, fun _ => rfl, fun _ => rfl,
        fun _ _ _ => rfl, fun dt _ _ _ hzf => ?_⟩
      rw [hz] at hzf
      exact absurd hzf (by simp)
    · rw [if_neg hz]
      refine ⟨fun h1 => absurd (Or.inl h1) hs, fun h2 => absurd h2 hz, ?_, ?_, ?_⟩
      · intro hp
        rw [hp]
      · intro dt hp hr
        rw [hp]
        show (if inRangeDT dt then some (isoFormat dt) else none) = none
        rw [hr]
        rfl
      · intro dt hp hr _ _
        rw [hp]
        show (if inRangeDT dt then some (isoFormat dt) else none) = some (isoFormat dt)
        rw [hr]
        rfl

theorem validate_and_parse_datetime_cases_witness :
    (pyStrip "0000:00:00 00:00:00" = "0000:00:00 00:00:00") ∧
    (validate_and_parse_datetime "0000:00:00 00:00:00" = none) :=
  ⟨rfl, (validate_and_parse_datetime_cases "0000:00:00 00:00:00").1 rfl⟩
